import Mathlib

/-!
Verification of the GAN-BnBERT trainer (`trainer.py`).

The tensor code is shallowly embedded over `ℚ`: a tensor of shape `[B]` is a
`List ℚ`, a tensor of shape `[B, H]` is a `List (List ℚ)` (row major), and a
tensor of shape `[B, T, H]` (the encoder's `last_hidden_state`) is a
`List (List (List ℚ))`.  The transcendental functions `torch.log`,
`torch.exp` (the latter implicit in `log_softmax`) are abstracted as
function parameters `lg ex : ℚ → ℚ`; no property of the real logarithm is
needed by any claim, which are all about how the trainer composes these
operations.  The three models (encoder, generator, discriminator) are
external collaborators and are abstracted as functions; `_generate_noise`
draws from a RNG, so the noise matrix is passed in as data.  Fallible
operations (`torch.nn.functional.one_hot` on an out-of-range label,
`CrossEntropyLoss` on an out-of-range target, `torch.stack` on an empty
list, a division by `len(dataloader) == 0`) are modelled with `Option`:
`none` is Python raising.
-/

namespace GanBnBert

/-- A 2-D tensor (row major). -/
abbrev Mat : Type := List (List ℚ)

/-- The three external models of the trainer: `self.encoder`
(`(input_ids, attention_mask) ↦ last_hidden_state` of shape `[B, T, H]`),
`self.generator` (`noise ↦ representation`), and `self.discriminator`
(`input ↦ (features, logits, probs)`). -/
structure Models where
  encoder : List (List ℤ) → List (List ℤ) → List Mat
  generator : Mat → Mat
  discriminator : Mat → Mat × Mat × Mat

/-- One training batch: `batch[0]`=input ids, `batch[1]`=attention mask,
`batch[2]`=labels, `batch[3]`=label mask; `noise` is the sample that
`self._generate_noise(real_batch_size)` returns for this batch. -/
structure TrainBatch where
  ids : List (List ℤ)
  amask : List (List ℤ)
  labels : List ℕ
  lmask : List Bool
  noise : Mat

/-- One validation batch: `batch[0]`, `batch[1]`, `batch[2]`. -/
structure ValBatch where
  ids : List (List ℤ)
  amask : List (List ℤ)
  labels : List ℕ

/-- `torch.mean` of a 1-D tensor (division in `ℚ`; the code only applies it
to nonempty tensors). -/
def mean (xs : List ℚ) : ℚ := xs.sum / (xs.length : ℚ)

/-- `t[:, -1]` on a 2-D tensor. -/
def lastColumn (m : Mat) : List ℚ := m.map (fun r => r.getLast?.getD 0)

/-- Prepend one row elementwise onto a list of columns (auxiliary for the
transposition below). -/
def consCols : List ℚ → List (List ℚ) → List (List ℚ)
  | [], cols => cols
  | x :: xs, [] => [x] :: consCols xs []
  | x :: xs, c :: cs => (x :: c) :: consCols xs cs

/-- Transposition of a (rectangular) 2-D tensor: the list of its columns. -/
def transposeQ : Mat → List (List ℚ)
  | [] => []
  | r :: rs => consCols r (transposeQ rs)

/-- `torch.mean(t, dim=0)` on a 2-D tensor: per-column mean. -/
def colMean (m : Mat) : List ℚ := (transposeQ m).map mean

/-- `F.log_softmax(row, dim=-1)` for one row:
`x_j - log (Σ_k exp x_k)`, with the abstract `lg`/`ex`. -/
def logSoftmax (lg ex : ℚ → ℚ) (row : List ℚ) : List ℚ :=
  row.map (fun x => x - lg ((row.map ex).sum))

/-- One row of `torch.nn.functional.one_hot(label, n)` (only defined for
`label < n`; the caller checks the range, mirroring the exception). -/
def oneHot (n l : ℕ) : List ℚ :=
  (List.range n).map (fun j => if j = l then 1 else 0)

/-- Row dot product: `torch.sum(a * b, dim=-1)` for one row pair. -/
def dot (xs ys : List ℚ) : ℚ := (List.zipWith (fun a b => a * b) xs ys).sum

/-- `torch.cat([a, b], dim=0)`. -/
def torchCat (a b : Mat) : Mat := a ++ b

/-- `torch.split(m, n)` unpacked into its two chunks (the trainer always
splits a `2n`-row tensor at `n`). -/
def torchSplit (m : Mat) (n : ℕ) : Mat × Mat := (m.take n, m.drop n)

/-- `model_outputs['last_hidden_state'][:, 0, :]` (trainer.py lines
121-122): run the encoder and keep sequence position 0 of every example. -/
def hiddenStatesOf (md : Models) (ids amask : List (List ℤ)) : Mat :=
  (md.encoder ids amask).map (fun m => m.headD [])

/-- `generator_loss` (trainer.py lines 133-136). -/
def generatorLoss (lg : ℚ → ℚ) (eps : ℚ) (realF fakeF fakeP : Mat) : ℚ :=
  -1 * mean ((lastColumn fakeP).map (fun p => lg (1 - p + eps)))
    + mean (List.zipWith (fun a b => (a - b) ^ 2) (colMean realF) (colMean fakeF))

/-- `log_probs = F.log_softmax(dis_real_logits[:, :-1], dim=-1)`
(trainer.py line 138). -/
def logProbsOf (lg ex : ℚ → ℚ) (realLogits : Mat) : Mat :=
  realLogits.map (fun row => logSoftmax lg ex row.dropLast)

/-- `single_example_loss = -torch.sum(label2one_hot * log_probs, dim=-1)`
(trainer.py lines 140-141). -/
def singleExampleLoss (C : ℕ) (labels : List ℕ) (log_probs : Mat) : List ℚ :=
  List.zipWith (fun l row => -(dot (oneHot C l) row)) labels log_probs

/-- `torch.masked_select` on a 1-D tensor. -/
def maskedSelect (xs : List ℚ) (mask : List Bool) : List ℚ :=
  ((xs.zip mask).filter (fun p => p.2)).map (fun p => p.1)

/-- `dl_supervised` (trainer.py lines 142-151): masked per-example losses,
`0` when no example is labeled, else their sum over their count. -/
def dlSupervised (C : ℕ) (labels : List ℕ) (lmask : List Bool) (log_probs : Mat) : ℚ :=
  let sel := maskedSelect (singleExampleLoss C labels log_probs) lmask
  if sel.length = 0 then 0 else sel.sum / (sel.length : ℚ)

/-- `dl_unsupervised1u` (trainer.py line 153). -/
def dlUnsupervised1 (lg : ℚ → ℚ) (eps : ℚ) (realP : Mat) : ℚ :=
  -1 * mean ((lastColumn realP).map (fun p => lg (1 - p + eps)))

/-- `dl_unsupervised2u` (trainer.py line 154). -/
def dlUnsupervised2 (lg : ℚ → ℚ) (eps : ℚ) (fakeP : Mat) : ℚ :=
  -1 * mean ((lastColumn fakeP).map (fun p => lg (p + eps)))

/-- `Trainer.train_step` (trainer.py lines 111-170), generic in the monad
used to call the discriminator so that the discriminator invocations can
be observed.  `torch.nn.functional.one_hot(b_labels, len(label_list))`
raises for a label outside `[0, C)`, hence the `Option`: `none` is the
raised exception (the optimizer side effects of lines 157-165 mutate
external state and are not part of any claim). -/
def trainStepM {M : Type → Type} [Monad M] (callD : Mat → M (Mat × Mat × Mat))
    (md : Models) (lg ex : ℚ → ℚ) (eps : ℚ) (C : ℕ)
    (ids amask : List (List ℤ)) (noise : Mat)
    (labels : List ℕ) (lmask : List Bool) : M (Option (ℚ × ℚ)) := do
  let real_batch_size := ids.length
  let hidden_states := hiddenStatesOf md ids amask
  let generator_representation := md.generator noise
  let discriminator_input := torchCat hidden_states generator_representation
  let out ← callD discriminator_input
  let features := out.1
  let logits := out.2.1
  let probs := out.2.2
  let dis_real_features := (torchSplit features real_batch_size).1
  let dis_fake_features := (torchSplit features real_batch_size).2
  let dis_real_logits := (torchSplit logits real_batch_size).1
  let dis_real_probs := (torchSplit probs real_batch_size).1
  let dis_fake_probs := (torchSplit probs real_batch_size).2
  let generator_loss := generatorLoss lg eps dis_real_features dis_fake_features dis_fake_probs
  if labels.all (fun l => decide (l < C)) then
    let log_probs := logProbsOf lg ex dis_real_logits
    let dl_supervised := dlSupervised C labels lmask log_probs
    let discriminator_loss :=
      dl_supervised + dlUnsupervised1 lg eps dis_real_probs + dlUnsupervised2 lg eps dis_fake_probs
    pure (some (generator_loss, discriminator_loss))
  else
    pure none

/-- `Trainer.train_step` run for value: returns
`(generator_loss, discriminator_loss)` or `none` if the step raises. -/
def trainStep (md : Models) (lg ex : ℚ → ℚ) (eps : ℚ) (C : ℕ)
    (ids amask : List (List ℤ)) (noise : Mat)
    (labels : List ℕ) (lmask : List Bool) : Option (ℚ × ℚ) :=
  Id.run (trainStepM (fun x => pure (md.discriminator x)) md lg ex eps C ids amask noise labels lmask)

/-- The list of inputs `Trainer.train_step` feeds to the discriminator,
observed by running the same step with an instrumented discriminator. -/
def trainStepDiscInputs (md : Models) (lg ex : ℚ → ℚ) (eps : ℚ) (C : ℕ)
    (ids amask : List (List ℤ)) (noise : Mat)
    (labels : List ℕ) (lmask : List Bool) : List Mat :=
  ((trainStepM (M := StateM (List Mat))
      (fun x => fun s => (md.discriminator x, s ++ [x]))
      md lg ex eps C ids amask noise labels lmask) []).2

/-- The discriminator output of the single forward pass of `train_step`
(trainer.py lines 126-127). -/
def discOutput (md : Models) (ids amask : List (List ℤ)) (noise : Mat) : Mat × Mat × Mat :=
  md.discriminator (torchCat (hiddenStatesOf md ids amask) (md.generator noise))

/-- First chunk of `torch.split(m, B)`: the real partition. -/
def realPart (m : Mat) (B : ℕ) : Mat := (torchSplit m B).1

/-- Second chunk of `torch.split(m, B)`: the fake partition. -/
def fakePart (m : Mat) (B : ℕ) : Mat := (torchSplit m B).2

/-- `torch.nn.CrossEntropyLoss()` with default mean reduction:
`none` models the exception on a length mismatch or an out-of-range
target, otherwise the mean of per-example `-log_softmax(row)[label]`. -/
def crossEntropyLoss (lg ex : ℚ → ℚ) (rows : Mat) (labels : List ℕ) : Option ℚ :=
  if rows.length = labels.length ∧ ∀ p ∈ rows.zip labels, p.2 < p.1.length then
    some (mean ((rows.zip labels).map (fun p => -((logSoftmax lg ex p.1).getD p.2 0))))
  else none

/-- Index of the first maximum of a nonempty row, 0 for an empty row:
`torch.max(t, 1).indices` for one row. -/
def argmaxAux (i best : ℕ) (bestv : ℚ) : List ℚ → ℕ
  | [] => best
  | x :: xs => if bestv < x then argmaxAux (i + 1) i x xs else argmaxAux (i + 1) best bestv xs

/-- `torch.max(t, 1)` index for one row. -/
def argmax : List ℚ → ℕ
  | [] => 0
  | x :: xs => argmaxAux 1 0 x xs

/-- `Trainer.val_step` (trainer.py lines 209-234), generic in the monad
used to call the discriminator.  The result is
`(validation_loss, predictions, ground_truths, probs)`; `none` models the
exception `CrossEntropyLoss` raises on invalid targets. -/
def valStepM {M : Type → Type} [Monad M] (callD : Mat → M (Mat × Mat × Mat))
    (md : Models) (lg ex : ℚ → ℚ)
    (ids amask : List (List ℤ)) (labels : List ℕ) (inference_mode : Bool) :
    M (Option (ℚ × List ℕ × Option (List ℕ) × Mat)) := do
  let b_labels : Option (List ℕ) := if inference_mode then none else some labels
  let hidden_states := hiddenStatesOf md ids amask
  let out ← callD hidden_states
  let logits := out.2.1
  let probs := out.2.2
  let filtered_logits : Mat := logits.map List.dropLast
  let validation_loss : Option ℚ :=
    if inference_mode then some 0 else crossEntropyLoss lg ex filtered_logits labels
  let predictions := filtered_logits.map argmax
  pure (validation_loss.map (fun L => (L, predictions, b_labels, probs)))

/-- `Trainer.val_step` run for value. -/
def valStep (md : Models) (lg ex : ℚ → ℚ)
    (ids amask : List (List ℤ)) (labels : List ℕ) (inference_mode : Bool) :
    Option (ℚ × List ℕ × Option (List ℕ) × Mat) :=
  Id.run (valStepM (fun x => pure (md.discriminator x)) md lg ex ids amask labels inference_mode)

/-- The list of inputs `Trainer.val_step` feeds to the discriminator. -/
def valStepDiscInputs (md : Models) (lg ex : ℚ → ℚ)
    (ids amask : List (List ℤ)) (labels : List ℕ) (inference_mode : Bool) : List Mat :=
  ((valStepM (M := StateM (List Mat))
      (fun x => fun s => (md.discriminator x, s ++ [x]))
      md lg ex ids amask labels inference_mode) []).2

/-- `predictions == ground_truths` under NumPy semantics for 1-D arrays:
equal lengths compare elementwise, a length-1 operand broadcasts, any
other shape pair raises (`none`). -/
def npBroadcastEq {α : Type} [DecidableEq α] (xs ys : List α) : Option (List Bool) :=
  if xs.length = ys.length then
    some (List.zipWith (fun a b => decide (a = b)) xs ys)
  else
    match xs, ys with
    | [x], ys => some (ys.map (fun b => decide (x = b)))
    | xs, [y] => some (xs.map (fun a => decide (a = y)))
    | _, _ => none

/-- `Trainer._compute_metrics` (trainer.py lines 236-238):
`np.sum(predictions == ground_truths) / len(predictions)`. -/
def computeMetrics {α : Type} [DecidableEq α] (predictions ground_truths : List α) : Option ℚ :=
  (npBroadcastEq predictions ground_truths).map
    (fun bs => ((bs.count true : ℕ) : ℚ) / (predictions.length : ℚ))

/-- Run a fallible step over every batch in order, stopping at the first
exception: the loop of `train_epoch`/`val_epoch`. -/
def traverseOption {α β : Type} (f : α → Option β) : List α → Option (List β)
  | [] => some []
  | a :: t => do
    let b ← f a
    let bs ← traverseOption f t
    pure (b :: bs)

/-- `Trainer.train_epoch` (trainer.py lines 98-109): accumulate both
losses over the dataloader, then divide by `len(train_dataloader)` (a
`ZeroDivisionError` on an empty dataloader is `none`). -/
def trainEpoch (md : Models) (lg ex : ℚ → ℚ) (eps : ℚ) (C : ℕ)
    (batches : List TrainBatch) : Option (ℚ × ℚ) := do
  let rs ← traverseOption (fun b => trainStep md lg ex eps C b.ids b.amask b.noise b.labels b.lmask) batches
  if batches.isEmpty then none
  else
    pure ((rs.map Prod.fst).sum / (batches.length : ℚ),
          (rs.map Prod.snd).sum / (batches.length : ℚ))

/-- The mode-independent part of `Trainer.val_epoch` (trainer.py lines
172-193): run `val_step` on every batch with `inference_mode` left at its
default `False`, accumulate, stack (`torch.stack` on an empty list
raises, hence the emptiness guard), and compute mean loss and accuracy.
Result: `(accuracy, mean loss, predictions, ground_truths, probs)`. -/
def valEpochCore (md : Models) (lg ex : ℚ → ℚ) (batches : List ValBatch) :
    Option (ℚ × ℚ × List ℕ × List ℕ × List Mat) := do
  let rs ← traverseOption (fun b => valStep md lg ex b.ids b.amask b.labels false) batches
  let validation_loss := (rs.map (fun r => r.1)).sum
  let predictions := (rs.map (fun r => r.2.1)).flatten
  let gtsLists ← traverseOption (fun r => r.2.2.1) rs
  let ground_truths := gtsLists.flatten
  let probsList := rs.map (fun r => r.2.2.2)
  if predictions.isEmpty ∨ ground_truths.isEmpty then none
  else
    (computeMetrics predictions ground_truths).map
      (fun acc => (acc, validation_loss / (batches.length : ℚ), predictions, ground_truths, probsList))

/-- The dictionary `Trainer.val_epoch` returns. -/
structure ValEpochOut where
  validation_accuracy : ℚ
  validation_loss : ℚ
  extras : Option (List ℕ × List ℕ × List Mat)
deriving DecidableEq

/-- `Trainer.val_epoch` (trainer.py lines 172-207): the raw arrays are
added to the result only when `mode == 'inference'`. -/
def valEpoch (md : Models) (lg ex : ℚ → ℚ) (batches : List ValBatch) (mode : String) :
    Option ValEpochOut :=
  (valEpochCore md lg ex batches).map (fun c =>
    ⟨c.1, c.2.1, if mode = "inference" then some (c.2.2.1, c.2.2.2.1, c.2.2.2.2) else none⟩)

/-- The checkpoint record `Trainer.save_model` passes to `torch.save`
(trainer.py lines 244-256); `σ` is a model `state_dict`, `ω` an optimizer
`state_dict`, `τ` an epoch summary. -/
structure Checkpoint (σ ω τ : Type) where
  epoch : ℕ
  encoder : σ
  generator : σ
  discriminator : σ
  generator_optim : ω
  discriminator_optim : ω
  train_loss : τ
  val_los : τ

/-- `Trainer.save_model` (trainer.py lines 240-256): the saving path
interpolates the artifact path, the epoch and the printed validation
summary (`render` is Python's `str` for the summary type); the record
holds the three model states, the two optimizer states and the two
summaries. -/
def saveModel {σ ω τ : Type} (artifact_path : String) (render : τ → String)
    (epoch : ℕ) (train_loss val_loss : τ)
    (encoder_state generator_state discriminator_state : σ)
    (generator_optim_state discriminator_optim_state : ω) :
    String × Checkpoint σ ω τ :=
  (artifact_path ++ "/epoch_" ++ toString epoch ++ "_" ++ render val_loss ++ ".pt",
   ⟨epoch, encoder_state, generator_state, discriminator_state,
    generator_optim_state, discriminator_optim_state, train_loss, val_loss⟩)

/-! Spec-side formulas, written from the specification's wording, to be
compared with the trainer's computations. -/

/-- Spec formula for the supervised discriminator term: restrict the real
logits to the first `C` columns, log-softmax, per-example negative
log-likelihood at the true label, averaged only over the examples whose
label mask is true. -/
def specSupervised (lg ex : ℚ → ℚ) (C : ℕ) (realLogits : Mat)
    (labels : List ℕ) (lmask : List Bool) : ℚ :=
  mean ((((realLogits.zip labels).zip lmask).filter (fun p => p.2)).map
    (fun p => -((logSoftmax lg ex (p.1.1.take C)).getD p.1.2 0)))

/-- Spec formula `-mean(log(1 - real_prob_on_fake_class + eps))`. -/
def specUnsupReal (lg : ℚ → ℚ) (eps : ℚ) (realP : Mat) : ℚ :=
  mean ((lastColumn realP).map (fun p => -(lg (1 - p + eps))))

/-- Spec formula `-mean(log(fake_prob_on_fake_class + eps))`. -/
def specUnsupFake (lg : ℚ → ℚ) (eps : ℚ) (fakeP : Mat) : ℚ :=
  mean ((lastColumn fakeP).map (fun p => -(lg (p + eps))))

/-- Spec formula for the generator's adversarial term
`-mean(log(1 - fake_prob_on_fake_class + eps))`. -/
def specAdversarial (lg : ℚ → ℚ) (eps : ℚ) (fakeP : Mat) : ℚ :=
  mean ((lastColumn fakeP).map (fun p => -(lg (1 - p + eps))))

/-- Spec formula for the feature-matching term
`mean((mean(real_features, axis=batch) - mean(fake_features, axis=batch))^2)`. -/
def specFeatureMatching (realF fakeF : Mat) : ℚ :=
  mean ((List.zipWith (fun a b => a - b) (colMean realF) (colMean fakeF)).map (fun d => d ^ 2))

/-- Spec formula for validation predictions: per-example arg-max over the
first `C` logit columns. -/
def specPredictions (C : ℕ) (logits : Mat) : List ℕ :=
  logits.map (fun r => argmax (r.take C))

/-- Spec formula for the validation loss: cross-entropy between the first
`C` logit columns and the true labels. -/
def specValLoss (lg ex : ℚ → ℚ) (C : ℕ) (logits : Mat) (labels : List ℕ) : ℚ :=
  mean ((logits.zip labels).map (fun p => -((logSoftmax lg ex (p.1.take C)).getD p.2 0)))

/-! Helper lemmas. -/

lemma sum_map_neg {α : Type} (f : α → ℚ) (l : List α) :
    (l.map (fun x => -(f x))).sum = -((l.map f).sum) := by
  induction l with
  | nil => simp
  | cons a t ih => simp [ih]; ring

lemma neg_one_mul_mean_map {α : Type} (f : α → ℚ) (l : List α) :
    -1 * mean (l.map f) = mean (l.map (fun x => -(f x))) := by
  simp [mean, sum_map_neg, neg_div]

lemma dlUnsupervised1_eq_spec (lg : ℚ → ℚ) (eps : ℚ) (realP : Mat) :
    dlUnsupervised1 lg eps realP = specUnsupReal lg eps realP :=
  neg_one_mul_mean_map _ _

lemma dlUnsupervised2_eq_spec (lg : ℚ → ℚ) (eps : ℚ) (fakeP : Mat) :
    dlUnsupervised2 lg eps fakeP = specUnsupFake lg eps fakeP :=
  neg_one_mul_mean_map _ _

lemma generatorLoss_eq_spec (lg : ℚ → ℚ) (eps : ℚ) (realF fakeF fakeP : Mat) :
    generatorLoss lg eps realF fakeF fakeP =
      specAdversarial lg eps fakeP + specFeatureMatching realF fakeF := by
  unfold generatorLoss specAdversarial specFeatureMatching
  rw [neg_one_mul_mean_map, List.map_zipWith]

lemma dot_of_all_zero (ys : List ℚ) (xs : List ℚ) (h : ∀ a ∈ ys, a = 0) :
    dot ys xs = 0 := by
  induction ys generalizing xs with
  | nil => simp [dot]
  | cons a t ih =>
    cases xs with
    | nil => simp [dot]
    | cons x xt =>
      have ha : a = 0 := h a (by simp)
      have ht : dot t xt = 0 := ih xt (fun b hb => h b (by simp [hb]))
      simp [dot] at ht ⊢
      simp [ha, ht]

lemma dot_oneHot (v : List ℚ) (n l : ℕ) (hv : v.length = n) (hl : l < n) :
    dot (oneHot n l) v = v.getD l 0 := by
  induction v generalizing n l with
  | nil => simp at hv; omega
  | cons x xs ih =>
    have hn : n = xs.length + 1 := by simpa using hv.symm
    subst hn
    rw [oneHot, List.range_succ_eq_map, List.map_cons, List.map_map]
    cases l with
    | zero =>
      have hzero : dot ((List.range xs.length).map
          ((fun j => if j = 0 then (1 : ℚ) else 0) ∘ Nat.succ)) xs = 0 := by
        apply dot_of_all_zero
        intro a ha
        simp at ha
        obtain ⟨j, _, hj⟩ := ha
        simpa using hj.symm
      simp [dot] at hzero ⊢
      simpa using hzero
    | succ k =>
      have hk : k < xs.length := by omega
      have htail : (List.range xs.length).map
          ((fun j => if j = k + 1 then (1 : ℚ) else 0) ∘ Nat.succ) = oneHot xs.length k := by
        unfold oneHot
        apply List.map_congr_left
        intro j _
        simp [Function.comp, Nat.succ_eq_add_one]
      have hih := ih xs.length k rfl hk
      rw [htail]
      simp [dot] at hih ⊢
      simpa using hih

lemma maskedSelect_allFalse (xs : List ℚ) (mask : List Bool)
    (h : ∀ b ∈ mask, b = false) : maskedSelect xs mask = [] := by
  induction xs generalizing mask with
  | nil => simp [maskedSelect]
  | cons x xt ih =>
    cases mask with
    | nil => simp [maskedSelect]
    | cons m mt =>
      have hm : m = false := h m (by simp)
      have ht := ih mt (fun b hb => h b (by simp [hb]))
      simp [maskedSelect, hm] at ht ⊢
      exact ht

lemma maskedSelect_singleExampleLoss_eq (lg ex : ℚ → ℚ) (C : ℕ) :
    ∀ (rows : Mat) (labels : List ℕ) (lmask : List Bool),
      rows.length = labels.length → labels.length = lmask.length →
      (∀ r ∈ rows, r.length = C + 1) → (∀ l ∈ labels, l < C) →
      maskedSelect (singleExampleLoss C labels (logProbsOf lg ex rows)) lmask =
        (((rows.zip labels).zip lmask).filter (fun p => p.2)).map
          (fun p => -((logSoftmax lg ex (p.1.1.take C)).getD p.1.2 0)) := by
  intro rows
  induction rows with
  | nil =>
    intro labels lmask h1 h2 _ _
    have : labels = [] := List.length_eq_zero.mp (by simpa using h1.symm)
    subst this
    have : lmask = [] := List.length_eq_zero.mp (by simpa using h2.symm)
    subst this
    simp [maskedSelect, singleExampleLoss, logProbsOf]
  | cons r rest ih =>
    intro labels lmask h1 h2 hrow hlab
    cases labels with
    | nil => simp at h1
    | cons l ls =>
      cases lmask with
      | nil => simp at h2
      | cons m ms =>
        have hr : r.length = C + 1 := hrow r (by simp)
        have hl : l < C := hlab l (by simp)
        have hdl : r.dropLast = r.take C := by
          rw [List.dropLast_eq_take, hr]
          simp
        have hlen : (logSoftmax lg ex (r.take C)).length = C := by
          simp [logSoftmax, hr]
        have hhead : dot (oneHot C l) (logSoftmax lg ex r.dropLast) =
            (logSoftmax lg ex (r.take C)).getD l 0 := by
          rw [hdl]
          exact dot_oneHot _ C l hlen hl
        have htail := ih ls ms (by simpa using h1) (by simpa using h2)
          (fun q hq => hrow q (by simp [hq])) (fun q hq => hlab q (by simp [hq]))
        cases m with
        | false =>
          simpa [maskedSelect, singleExampleLoss, logProbsOf, List.filter] using htail
        | true =>
          simp [maskedSelect, singleExampleLoss, logProbsOf, List.filter] at htail ⊢
          exact ⟨by simpa using hhead, htail⟩

lemma dlSupervised_eq_spec (lg ex : ℚ → ℚ) (C : ℕ) (rows : Mat)
    (labels : List ℕ) (lmask : List Bool)
    (h1 : rows.length = labels.length) (h2 : labels.length = lmask.length)
    (hrow : ∀ r ∈ rows, r.length = C + 1) (hlab : ∀ l ∈ labels, l < C) :
    dlSupervised C labels lmask (logProbsOf lg ex rows) =
      specSupervised lg ex C rows labels lmask := by
  unfold dlSupervised specSupervised
  rw [maskedSelect_singleExampleLoss_eq lg ex C rows labels lmask h1 h2 hrow hlab]
  by_cases h : ((((rows.zip labels).zip lmask).filter (fun p => p.2)).map
      (fun p => -((logSoftmax lg ex (p.1.1.take C)).getD p.1.2 0))).length = 0
  · rw [if_pos h]
    have hnil : (((rows.zip labels).zip lmask).filter (fun p => p.2)).map
        (fun p => -((logSoftmax lg ex (p.1.1.take C)).getD p.1.2 0)) = [] :=
      List.length_eq_zero.mp h
    rw [hnil]
    simp [mean]
  · rw [if_neg h]
    rfl

lemma option_bind_some {α β : Type} (a : α) (f : α → Option β) : (some a >>= f) = f a := rfl

lemma traverseOption_cons {α β : Type} (f : α → Option β) (a : α) (t : List α) :
    traverseOption f (a :: t) =
      (f a).bind (fun b => (traverseOption f t).bind (fun bs => some (b :: bs))) := rfl

lemma traverseOption_length {α β : Type} (f : α → Option β) :
    ∀ (l : List α) (r : List β), traverseOption f l = some r → r.length = l.length := by
  intro l
  induction l with
  | nil =>
    intro r h
    simp [traverseOption] at h
    simp [h.symm]
  | cons a t ih =>
    intro r h
    rw [traverseOption_cons] at h
    cases hfa : f a with
    | none => rw [hfa] at h; simp at h
    | some b =>
      rw [hfa] at h
      cases hft : traverseOption f t with
      | none => rw [hft] at h; simp at h
      | some bs =>
        rw [hft] at h
        simp at h
        simp [h.symm, ih bs hft]

lemma traverseOption_none_of_mem {α β : Type} (f : α → Option β) :
    ∀ (l : List α) (a : α), a ∈ l → f a = none → traverseOption f l = none := by
  intro l
  induction l with
  | nil => intro a ha; simp at ha
  | cons b t ih =>
    intro a ha hfa
    rw [traverseOption_cons]
    rcases List.mem_cons.mp ha with hb | ht
    · subst hb
      rw [hfa]
      rfl
    · cases hfb : f b with
      | none => rfl
      | some v => simp [ih a ht hfa]

lemma trainStep_eq (md : Models) (lg ex : ℚ → ℚ) (eps : ℚ) (C : ℕ)
    (ids amask : List (List ℤ)) (noise : Mat) (labels : List ℕ) (lmask : List Bool) :
    trainStep md lg ex eps C ids amask noise labels lmask =
      if labels.all (fun l => decide (l < C)) then
        some (generatorLoss lg eps (realPart (discOutput md ids amask noise).1 ids.length)
                (fakePart (discOutput md ids amask noise).1 ids.length)
                (fakePart (discOutput md ids amask noise).2.2 ids.length),
              dlSupervised C labels lmask
                  (logProbsOf lg ex (realPart (discOutput md ids amask noise).2.1 ids.length))
                + dlUnsupervised1 lg eps (realPart (discOutput md ids amask noise).2.2 ids.length)
                + dlUnsupervised2 lg eps (fakePart (discOutput md ids amask noise).2.2 ids.length))
      else none := rfl

lemma valStep_eq (md : Models) (lg ex : ℚ → ℚ)
    (ids amask : List (List ℤ)) (labels : List ℕ) (inference_mode : Bool) :
    valStep md lg ex ids amask labels inference_mode =
      ((if inference_mode then some 0
        else crossEntropyLoss lg ex
          (((md.discriminator (hiddenStatesOf md ids amask)).2.1).map List.dropLast) labels).map
        (fun L => (L,
          (((md.discriminator (hiddenStatesOf md ids amask)).2.1).map List.dropLast).map argmax,
          if inference_mode then none else some labels,
          (md.discriminator (hiddenStatesOf md ids amask)).2.2))) := rfl

lemma trainStepDiscInputs_eq (md : Models) (lg ex : ℚ → ℚ) (eps : ℚ) (C : ℕ)
    (ids amask : List (List ℤ)) (noise : Mat) (labels : List ℕ) (lmask : List Bool) :
    trainStepDiscInputs md lg ex eps C ids amask noise labels lmask =
      [torchCat (hiddenStatesOf md ids amask) (md.generator noise)] := by
  unfold trainStepDiscInputs trainStepM
  cases hc : labels.all (fun l => decide (l < C)) <;>
    simp [hc, StateT.run, bind, StateT.bind, pure, StateT.pure]

lemma valStepDiscInputs_eq (md : Models) (lg ex : ℚ → ℚ)
    (ids amask : List (List ℤ)) (labels : List ℕ) (inference_mode : Bool) :
    valStepDiscInputs md lg ex ids amask labels inference_mode =
      [hiddenStatesOf md ids amask] := by
  unfold valStepDiscInputs valStepM
  simp [bind, StateT.bind, pure, StateT.pure]

lemma filtered_argmax_eq_spec (C : ℕ) (L : Mat) (hrow : ∀ r ∈ L, r.length = C + 1) :
    (L.map List.dropLast).map argmax = specPredictions C L := by
  rw [List.map_map]
  unfold specPredictions
  apply List.map_congr_left
  intro r hr
  have hdl : r.dropLast = r.take C := by
    rw [List.dropLast_eq_take, hrow r hr]
    simp
  simp [Function.comp, hdl]

lemma crossEntropy_filtered_eq_spec (lg ex : ℚ → ℚ) (C : ℕ) (L : Mat) (labels : List ℕ)
    (hrow : ∀ r ∈ L, r.length = C + 1) (hlen : labels.length = L.length)
    (hlab : ∀ l ∈ labels, l < C) :
    crossEntropyLoss lg ex (L.map List.dropLast) labels =
      some (specValLoss lg ex C L labels) := by
  have hcond : (L.map List.dropLast).length = labels.length ∧
      ∀ p ∈ (L.map List.dropLast).zip labels, p.2 < p.1.length := by
    constructor
    · simp [hlen]
    · intro p hp
      rw [List.zip_map_left] at hp
      obtain ⟨q, hq, hq2⟩ := List.mem_map.mp hp
      have hr : q.1 ∈ L := (List.of_mem_zip hq).1
      have hl : q.2 ∈ labels := (List.of_mem_zip hq).2
      rw [← hq2]
      simp [Prod.map, List.length_dropLast, hrow q.1 hr]
      exact hlab q.2 hl
  unfold crossEntropyLoss
  rw [if_pos hcond]
  unfold specValLoss
  congr 1
  congr 1
  rw [List.zip_map_left, List.map_map]
  apply List.map_congr_left
  intro q hq
  have hr : q.1 ∈ L := (List.of_mem_zip hq).1
  have hdl : q.1.dropLast = q.1.take C := by
    rw [List.dropLast_eq_take, hrow q.1 hr]
    simp
  simp [Function.comp, Prod.map, hdl]

/-! Concrete instances used by the witnesses. -/

/-- A concrete model triple for witnesses: the encoder maps every example
to the single hidden row `[1, 2]`, the generator is the identity, and the
discriminator returns its input as features, logits and probs. -/
def exModels : Models :=
  ⟨fun ids _ => ids.map (fun _ => [[1, 2]]), fun n => n, fun m => (m, m, m)⟩

/-! Claim theorems. -/

/-- Claim C1: for every training batch (valid labels, consistent shapes),
the discriminator loss returned by `train_step` is the sum of the
supervised term (log-softmax over the first `C` columns of the
real-partition logits, one-hot negative log-likelihood per example,
averaged only over mask-true examples), the unsupervised term
`-mean(log(1 - real_prob_on_fake_class + eps))` over the real partition,
and the unsupervised term `-mean(log(fake_prob_on_fake_class + eps))`
over the fake partition. -/
theorem c1_discriminator_loss_decomposition
    (md : Models) (lg ex : ℚ → ℚ) (eps : ℚ) (C : ℕ)
    (ids amask : List (List ℤ)) (noise : Mat) (labels : List ℕ) (lmask : List Bool)
    (hlab : ∀ l ∈ labels, l < C)
    (hlen : labels.length = ids.length)
    (hmask : labels.length = lmask.length)
    (hlog : (discOutput md ids amask noise).2.1.length = 2 * ids.length)
    (hrow : ∀ r ∈ (discOutput md ids amask noise).2.1, r.length = C + 1) :
    ∃ g, trainStep md lg ex eps C ids amask noise labels lmask =
      some (g,
        specSupervised lg ex C (realPart (discOutput md ids amask noise).2.1 ids.length) labels lmask
          + specUnsupReal lg eps (realPart (discOutput md ids amask noise).2.2 ids.length)
          + specUnsupFake lg eps (fakePart (discOutput md ids amask noise).2.2 ids.length)) := by
  have hall : labels.all (fun l => decide (l < C)) = true := by
    rw [List.all_eq_true]
    intro x hx
    simpa using hlab x hx
  have h1 : (realPart (discOutput md ids amask noise).2.1 ids.length).length = labels.length := by
    simp [realPart, torchSplit, hlog, hlen]
    omega
  have hrow2 : ∀ r ∈ realPart (discOutput md ids amask noise).2.1 ids.length, r.length = C + 1 :=
    fun r hr => hrow r (List.mem_of_mem_take hr)
  refine ⟨generatorLoss lg eps (realPart (discOutput md ids amask noise).1 ids.length)
    (fakePart (discOutput md ids amask noise).1 ids.length)
    (fakePart (discOutput md ids amask noise).2.2 ids.length), ?_⟩
  rw [trainStep_eq, if_pos hall,
    dlSupervised_eq_spec lg ex C _ labels lmask h1 hmask hrow2 hlab,
    dlUnsupervised1_eq_spec, dlUnsupervised2_eq_spec]

/-- Witness for C1 at a concrete batch. -/
theorem c1_witness :
    ∃ g, trainStep exModels id id 1 1 [[0]] [[0]] [[3, 4]] [0] [true] =
      some (g,
        specSupervised id id 1
            (realPart (discOutput exModels [[0]] [[0]] [[3, 4]]).2.1 ([[(0 : ℤ)]] : List (List ℤ)).length)
            [0] [true]
          + specUnsupReal id 1
            (realPart (discOutput exModels [[0]] [[0]] [[3, 4]]).2.2 ([[(0 : ℤ)]] : List (List ℤ)).length)
          + specUnsupFake id 1
            (fakePart (discOutput exModels [[0]] [[0]] [[3, 4]]).2.2 ([[(0 : ℤ)]] : List (List ℤ)).length)) :=
  c1_discriminator_loss_decomposition exModels id id 1 1 [[0]] [[0]] [[3, 4]] [0] [true]
    (by decide) (by decide) (by decide) (by decide) (by decide)

/-- Claim C2: for every training batch with valid labels, the generator
loss returned by `train_step` is the adversarial term
`-mean(log(1 - fake_prob_on_fake_class + eps))` plus the feature-matching
term `mean((mean(real_features, axis=batch) - mean(fake_features,
axis=batch))^2)`. -/
theorem c2_generator_loss_decomposition
    (md : Models) (lg ex : ℚ → ℚ) (eps : ℚ) (C : ℕ)
    (ids amask : List (List ℤ)) (noise : Mat) (labels : List ℕ) (lmask : List Bool)
    (hlab : ∀ l ∈ labels, l < C) :
    ∃ d, trainStep md lg ex eps C ids amask noise labels lmask =
      some (specAdversarial lg eps (fakePart (discOutput md ids amask noise).2.2 ids.length)
              + specFeatureMatching (realPart (discOutput md ids amask noise).1 ids.length)
                  (fakePart (discOutput md ids amask noise).1 ids.length),
            d) := by
  have hall : labels.all (fun l => decide (l < C)) = true := by
    rw [List.all_eq_true]
    intro x hx
    simpa using hlab x hx
  refine ⟨dlSupervised C labels lmask
      (logProbsOf lg ex (realPart (discOutput md ids amask noise).2.1 ids.length))
    + dlUnsupervised1 lg eps (realPart (discOutput md ids amask noise).2.2 ids.length)
    + dlUnsupervised2 lg eps (fakePart (discOutput md ids amask noise).2.2 ids.length), ?_⟩
  rw [trainStep_eq, if_pos hall, generatorLoss_eq_spec]

/-- Witness for C2 at a concrete batch. -/
theorem c2_witness :
    ∃ d, trainStep exModels id id 1 1 [[0]] [[0]] [[3, 4]] [0] [true] =
      some (specAdversarial id 1
              (fakePart (discOutput exModels [[0]] [[0]] [[3, 4]]).2.2 ([[(0 : ℤ)]] : List (List ℤ)).length)
              + specFeatureMatching
                  (realPart (discOutput exModels [[0]] [[0]] [[3, 4]]).1 ([[(0 : ℤ)]] : List (List ℤ)).length)
                  (fakePart (discOutput exModels [[0]] [[0]] [[3, 4]]).1 ([[(0 : ℤ)]] : List (List ℤ)).length),
            d) :=
  c2_generator_loss_decomposition exModels id id 1 1 [[0]] [[0]] [[3, 4]] [0] [true] (by decide)

/-- Claim C3: for every training batch whose label mask is false at every
position (labels still in range, per the batch precondition), the
supervised term is exactly 0 — no error — and the discriminator loss
reduces to the sum of the two unsupervised terms. -/
theorem c3_all_unlabeled_supervised_zero
    (md : Models) (lg ex : ℚ → ℚ) (eps : ℚ) (C : ℕ)
    (ids amask : List (List ℤ)) (noise : Mat) (labels : List ℕ) (lmask : List Bool)
    (hlab : ∀ l ∈ labels, l < C)
    (hm : ∀ b ∈ lmask, b = false) :
    dlSupervised C labels lmask
        (logProbsOf lg ex (realPart (discOutput md ids amask noise).2.1 ids.length)) = 0
    ∧ ∃ g, trainStep md lg ex eps C ids amask noise labels lmask =
        some (g, dlUnsupervised1 lg eps (realPart (discOutput md ids amask noise).2.2 ids.length)
                  + dlUnsupervised2 lg eps (fakePart (discOutput md ids amask noise).2.2 ids.length)) := by
  have hall : labels.all (fun l => decide (l < C)) = true := by
    rw [List.all_eq_true]
    intro x hx
    simpa using hlab x hx
  have hz : dlSupervised C labels lmask
      (logProbsOf lg ex (realPart (discOutput md ids amask noise).2.1 ids.length)) = 0 := by
    simp [dlSupervised, maskedSelect_allFalse _ _ hm]
  refine ⟨hz, ⟨generatorLoss lg eps (realPart (discOutput md ids amask noise).1 ids.length)
    (fakePart (discOutput md ids amask noise).1 ids.length)
    (fakePart (discOutput md ids amask noise).2.2 ids.length), ?_⟩⟩
  rw [trainStep_eq, if_pos hall, hz, zero_add]

/-- Witness for C3 at a concrete batch with an all-false label mask. -/
theorem c3_witness :
    dlSupervised 1 [0] [false]
        (logProbsOf id id (realPart (discOutput exModels [[0]] [[0]] [[3, 4]]).2.1 ([[(0 : ℤ)]] : List (List ℤ)).length)) = 0
    ∧ ∃ g, trainStep exModels id id 1 1 [[0]] [[0]] [[3, 4]] [0] [false] =
        some (g, dlUnsupervised1 id 1
                  (realPart (discOutput exModels [[0]] [[0]] [[3, 4]]).2.2 ([[(0 : ℤ)]] : List (List ℤ)).length)
                  + dlUnsupervised2 id 1
                  (fakePart (discOutput exModels [[0]] [[0]] [[3, 4]]).2.2 ([[(0 : ℤ)]] : List (List ℤ)).length)) :=
  c3_all_unlabeled_supervised_zero exModels id id 1 1 [[0]] [[0]] [[3, 4]] [0] [false]
    (by decide) (by decide)

/-- Claim C4: `train_step` runs the discriminator exactly once, on the
concatenation of the real hidden states followed by the generated
representations (real rows first, `2B` rows in total), and splitting any
`2B`-row discriminator output at row index `B` recovers exactly the
first-`B`-rows real partition and the last-`B`-rows fake partition. -/
theorem c4_single_discriminator_call_and_split
    (md : Models) (lg ex : ℚ → ℚ) (eps : ℚ) (C : ℕ)
    (ids amask : List (List ℤ)) (noise : Mat) (labels : List ℕ) (lmask : List Bool) :
    trainStepDiscInputs md lg ex eps C ids amask noise labels lmask =
      [torchCat (hiddenStatesOf md ids amask) (md.generator noise)]
    ∧ ((hiddenStatesOf md ids amask).length = ids.length →
        (md.generator noise).length = ids.length →
        (torchCat (hiddenStatesOf md ids amask) (md.generator noise)).length = 2 * ids.length)
    ∧ ((hiddenStatesOf md ids amask).length = ids.length →
        torchSplit (torchCat (hiddenStatesOf md ids amask) (md.generator noise)) ids.length =
          (hiddenStatesOf md ids amask, md.generator noise))
    ∧ (∀ o : Mat, o.length = 2 * ids.length →
        (realPart o ids.length).length = ids.length
        ∧ (fakePart o ids.length).length = ids.length
        ∧ torchCat (realPart o ids.length) (fakePart o ids.length) = o) := by
  refine ⟨trainStepDiscInputs_eq md lg ex eps C ids amask noise labels lmask, ?_, ?_, ?_⟩
  · intro h1 h2
    simp [torchCat, h1, h2]
    ring
  · intro h1
    unfold torchSplit torchCat
    rw [List.take_left' h1, List.drop_left' h1]
  · intro o ho
    refine ⟨?_, ?_, ?_⟩
    · simp [realPart, torchSplit, ho]
      omega
    · simp [fakePart, torchSplit, ho]
      omega
    · simp [torchCat, realPart, fakePart, torchSplit]

/-- Witness for C4 at a concrete batch. -/
theorem c4_witness :
    torchSplit (torchCat (hiddenStatesOf exModels [[0]] [[0]]) (exModels.generator [[3, 4]])) 1 =
      (hiddenStatesOf exModels [[0]] [[0]], exModels.generator [[3, 4]])
    ∧ torchCat (realPart [[1, 2], [3, 4]] 1) (fakePart [[1, 2], [3, 4]] 1) = [[1, 2], [3, 4]] :=
  ⟨(c4_single_discriminator_call_and_split exModels id id 1 1 [[0]] [[0]] [[3, 4]] [0] [true]).2.2.1
      (by decide),
   ((c4_single_discriminator_call_and_split exModels id id 1 1 [[0]] [[0]] [[3, 4]] [0] [true]).2.2.2
      [[1, 2], [3, 4]] (by decide)).2.2⟩

/-- Claim C5: the validation step runs the discriminator on the hidden
states only (no generator branch, no concatenation), computes its loss as
cross-entropy between the first `C` logit columns and the true labels,
returns per-example predictions as arg-max over the first `C` logit
columns, and in pure-inference mode returns loss exactly 0 and no ground
truths. -/
theorem c5_val_step_behaviour
    (md : Models) (lg ex : ℚ → ℚ) (C : ℕ)
    (ids amask : List (List ℤ)) (labels : List ℕ) (inference_mode : Bool)
    (hrow : ∀ r ∈ (md.discriminator (hiddenStatesOf md ids amask)).2.1, r.length = C + 1) :
    valStepDiscInputs md lg ex ids amask labels inference_mode = [hiddenStatesOf md ids amask]
    ∧ (valStep md lg ex ids amask labels true =
        some (0, specPredictions C (md.discriminator (hiddenStatesOf md ids amask)).2.1, none,
              (md.discriminator (hiddenStatesOf md ids amask)).2.2))
    ∧ (labels.length = (md.discriminator (hiddenStatesOf md ids amask)).2.1.length →
        (∀ l ∈ labels, l < C) →
        valStep md lg ex ids amask labels false =
          some (specValLoss lg ex C (md.discriminator (hiddenStatesOf md ids amask)).2.1 labels,
                specPredictions C (md.discriminator (hiddenStatesOf md ids amask)).2.1, some labels,
                (md.discriminator (hiddenStatesOf md ids amask)).2.2)) := by
  refine ⟨valStepDiscInputs_eq md lg ex ids amask labels inference_mode, ?_, ?_⟩
  · rw [valStep_eq]
    simp [filtered_argmax_eq_spec C _ hrow]
  · intro hlen hlab
    rw [valStep_eq]
    simp only [Bool.false_eq_true, if_false]
    rw [crossEntropy_filtered_eq_spec lg ex C _ labels hrow hlen hlab]
    simp [filtered_argmax_eq_spec C _ hrow]

/-- Witness for C5 at a concrete batch, in both modes. -/
theorem c5_witness :
    valStep exModels id id [[0]] [[0]] [0] true =
      some (0, specPredictions 1 (exModels.discriminator (hiddenStatesOf exModels [[0]] [[0]])).2.1,
            none, (exModels.discriminator (hiddenStatesOf exModels [[0]] [[0]])).2.2)
    ∧ valStep exModels id id [[0]] [[0]] [0] false =
      some (specValLoss id id 1 (exModels.discriminator (hiddenStatesOf exModels [[0]] [[0]])).2.1 [0],
            specPredictions 1 (exModels.discriminator (hiddenStatesOf exModels [[0]] [[0]])).2.1,
            some [0], (exModels.discriminator (hiddenStatesOf exModels [[0]] [[0]])).2.2) :=
  ⟨(c5_val_step_behaviour exModels id id 1 [[0]] [[0]] [0] true (by decide)).2.1,
   (c5_val_step_behaviour exModels id id 1 [[0]] [[0]] [0] false (by decide)).2.2
      (by decide) (by decide)⟩

lemma valEpochCore_inversion (md : Models) (lg ex : ℚ → ℚ) (vb : List ValBatch)
    (c : ℚ × ℚ × List ℕ × List ℕ × List Mat)
    (h : valEpochCore md lg ex vb = some c) :
    ∃ vrs gl,
      traverseOption (fun b => valStep md lg ex b.ids b.amask b.labels false) vb = some vrs
      ∧ traverseOption (fun r => r.2.2.1) vrs = some gl
      ∧ c.2.1 = (vrs.map (fun r => r.1)).sum / (vb.length : ℚ)
      ∧ c.2.2.2.1 = gl.flatten := by
  unfold valEpochCore at h
  cases hrs : traverseOption (fun b => valStep md lg ex b.ids b.amask b.labels false) vb with
  | none => rw [hrs] at h; simp at h
  | some vrs =>
    rw [hrs] at h
    simp only [option_bind_some] at h
    cases hgl : traverseOption (fun r => r.2.2.1) vrs with
    | none => rw [hgl] at h; simp at h
    | some gl =>
      rw [hgl] at h
      simp only [option_bind_some] at h
      refine ⟨vrs, gl, rfl, hgl, ?_⟩
      split at h
      · simp at h
      · rw [Option.map_eq_some'] at h
        obtain ⟨acc, _, hacc⟩ := h
        rw [← hacc]
        exact ⟨rfl, rfl⟩

/-- Claim C6: for every nonempty training dataloader, `train_epoch`
returns the arithmetic mean of the per-batch generator and discriminator
losses; `val_epoch` returns `validation_loss` equal to the sum of the
per-batch losses divided by the number of batches (exact in `ℚ`, which is
the floating-point-tolerance reading of the claim). -/
theorem c6_epoch_losses_are_batch_means
    (md : Models) (lg ex : ℚ → ℚ) (eps : ℚ) (C : ℕ)
    (tb : List TrainBatch) (vb : List ValBatch) (mode : String) :
    (∀ rs, tb ≠ [] →
      traverseOption (fun b => trainStep md lg ex eps C b.ids b.amask b.noise b.labels b.lmask) tb
        = some rs →
      trainEpoch md lg ex eps C tb = some (mean (rs.map Prod.fst), mean (rs.map Prod.snd)))
    ∧ (∀ vrs out,
        traverseOption (fun b => valStep md lg ex b.ids b.amask b.labels false) vb = some vrs →
        valEpoch md lg ex vb mode = some out →
        out.validation_loss = (vrs.map (fun r => r.1)).sum / (vb.length : ℚ)) := by
  constructor
  · intro rs hne h
    have hlen := traverseOption_length _ tb rs h
    unfold trainEpoch
    rw [h]
    simp only [option_bind_some]
    have hemp : tb.isEmpty = false := by
      cases htb : tb.isEmpty
      · rfl
      · exact absurd (List.isEmpty_iff.mp htb) hne
    rw [hemp]
    simp [mean, hlen]
  · intro vrs out h1 h2
    unfold valEpoch at h2
    rw [Option.map_eq_some'] at h2
    obtain ⟨c, hc, hout⟩ := h2
    obtain ⟨vrs2, _, hrs2, _, hloss, _⟩ := valEpochCore_inversion md lg ex vb c hc
    have hv : vrs2 = vrs := by
      rw [h1] at hrs2
      exact (Option.some_inj.mp hrs2).symm
    rw [← hout]
    show c.2.1 = (vrs.map (fun r => r.1)).sum / (vb.length : ℚ)
    rw [hloss, hv]

/-- Witness for C6 at a concrete one-batch training dataloader. -/
theorem c6_witness :
    trainEpoch exModels id id 1 1 [⟨[[0]], [[0]], [0], [true], [[3, 4]]⟩] =
      some (mean ([((6 : ℚ), (-5 : ℚ))].map Prod.fst),
            mean ([((6 : ℚ), (-5 : ℚ))].map Prod.snd)) := by
  have hstep : trainStep exModels id id 1 1 [[0]] [[0]] [[3, 4]] [0] [true] = some (6, -5) := by
    rw [trainStep_eq]
    norm_num [discOutput, hiddenStatesOf, exModels, torchCat, torchSplit, realPart, fakePart,
      generatorLoss, dlSupervised, dlUnsupervised1, dlUnsupervised2, maskedSelect,
      singleExampleLoss, logProbsOf, logSoftmax, oneHot, dot, mean, lastColumn, colMean,
      transposeQ, consCols, List.filter, List.range_succ]
  exact (c6_epoch_losses_are_batch_means exModels id id 1 1
      [⟨[[0]], [[0]], [0], [true], [[3, 4]]⟩] [] "training").1
    [(6, -5)] (by simp) (by simp [traverseOption, hstep])

/-- Claim C7: `save_model` produces one artifact per epoch whose name is
determined by the artifact path, the epoch index and the validation loss
(the `artifact_path/epoch_{epoch}_{val_loss}.pt` scheme) and whose record
contains the epoch index, the three model states, the two optimizer
states and both summaries. -/
theorem c7_checkpoint_name_and_contents {σ ω τ : Type}
    (artifact_path : String) (render : τ → String) (epoch : ℕ)
    (train_loss val_loss : τ) (es gs ds : σ) (go dop : ω) :
    (saveModel artifact_path render epoch train_loss val_loss es gs ds go dop).1 =
      artifact_path ++ "/epoch_" ++ toString epoch ++ "_" ++ render val_loss ++ ".pt"
    ∧ (saveModel artifact_path render epoch train_loss val_loss es gs ds go dop).2 =
      ⟨epoch, es, gs, ds, go, dop, train_loss, val_loss⟩ :=
  ⟨rfl, rfl⟩

/-- Counterexample for C8: two sequences of unequal lengths (1 and 3) on
which `_compute_metrics` does not raise but silently returns a value —
NumPy broadcasts the length-1 operand, so the claimed fail-fast behaviour
does not hold for every unequal-length pair. -/
theorem c8_counterexample :
    ([(5 : ℤ)] : List ℤ).length ≠ ([5, 5, 0] : List ℤ).length
    ∧ computeMetrics ([(5 : ℤ)]) ([5, 5, 0] : List ℤ) = some 2 := by
  constructor
  · decide
  · simp [computeMetrics, npBroadcastEq, List.count_cons]

/-- Claim C8 (amended): on equal-length nonempty sequences the accuracy
computation returns the fraction of positions where prediction equals
ground truth; on unequal lengths it fails fast unless one of the two
sequences has length 1, in which case NumPy broadcasting applies and a
value is returned instead of an error. -/
theorem c8_accuracy_amended {α : Type} [DecidableEq α] (p g : List α) :
    (p.length = g.length → 0 < p.length →
      computeMetrics p g =
        some ((((List.zipWith (fun a b => decide (a = b)) p g).count true : ℕ) : ℚ)
          / (p.length : ℚ)))
    ∧ (p.length ≠ g.length → p.length ≠ 1 → g.length ≠ 1 → computeMetrics p g = none) := by
  constructor
  · intro hlen _
    unfold computeMetrics npBroadcastEq
    rw [if_pos hlen]
    rfl
  · intro hne hp hg
    unfold computeMetrics npBroadcastEq
    rw [if_neg hne]
    cases p with
    | nil =>
      cases g with
      | nil => exact absurd rfl hne
      | cons y ys =>
        cases ys with
        | nil => exact absurd rfl hg
        | cons y2 ys2 => rfl
    | cons x xs =>
      cases xs with
      | nil => exact absurd rfl hp
      | cons x2 xs2 =>
        cases g with
        | nil => rfl
        | cons y ys =>
          cases ys with
          | nil => exact absurd rfl hg
          | cons y2 ys2 => rfl

/-- Witness for C8 (amended) at concrete inputs: an equal-length pair and
a non-broadcastable unequal-length pair. -/
theorem c8_witness :
    computeMetrics ([1, 2] : List ℤ) [1, 3] =
      some ((((List.zipWith (fun a b => decide (a = b)) ([1, 2] : List ℤ) [1, 3]).count true : ℕ) : ℚ)
        / (([1, 2] : List ℤ).length : ℚ))
    ∧ computeMetrics ([1, 2] : List ℤ) [1, 2, 3] = none :=
  ⟨(c8_accuracy_amended [1, 2] [1, 3]).1 (by decide) (by decide),
   (c8_accuracy_amended [1, 2] [1, 2, 3]).2 (by decide) (by decide) (by decide)⟩

/-- Claim C9: `train_step` one-hot encodes every label before the mask is
applied, so it is total whenever all labels lie in `[0, C)` — including
masked-out ones — and a batch whose only label is out of range raises
(returns `none`) even though its label mask is false everywhere, so that
the offending example contributes nothing to the supervised loss (its
masked selection is empty). -/
theorem c9_one_hot_precedes_mask :
    (∀ (md : Models) (lg ex : ℚ → ℚ) (eps : ℚ) (C : ℕ)
        (ids amask : List (List ℤ)) (noise : Mat) (labels : List ℕ) (lmask : List Bool),
      (∀ l ∈ labels, l < C) →
      (trainStep md lg ex eps C ids amask noise labels lmask).isSome = true)
    ∧ trainStep exModels id id 1 2 [[0]] [[0]] [[3, 4]] [2] [false] = none
    ∧ maskedSelect (singleExampleLoss 2 [2]
        (logProbsOf id id (realPart (discOutput exModels [[0]] [[0]] [[3, 4]]).2.1 1))) [false]
      = [] := by
  refine ⟨?_, ?_, ?_⟩
  · intro md lg ex eps C ids amask noise labels lmask hlab
    have hall : labels.all (fun l => decide (l < C)) = true := by
      rw [List.all_eq_true]
      intro x hx
      simpa using hlab x hx
    rw [trainStep_eq, if_pos hall]
    rfl
  · rw [trainStep_eq]
    simp
  · decide

/-- Witness for C9: a batch with all labels in range is processed without
error. -/
theorem c9_witness :
    (trainStep exModels id id 1 2 [[0]] [[0]] [[3, 4]] [0] [true]).isSome = true :=
  c9_one_hot_precedes_mask.1 exModels id id 1 2 [[0]] [[0]] [[3, 4]] [0] [true] (by decide)

lemma valStep_false_ground_truths (md : Models) (lg ex : ℚ → ℚ)
    (ids amask : List (List ℤ)) (labels : List ℕ)
    (r : ℚ × List ℕ × Option (List ℕ) × Mat)
    (h : valStep md lg ex ids amask labels false = some r) : r.2.2.1 = some labels := by
  rw [valStep_eq] at h
  simp only [Bool.false_eq_true, if_false] at h
  rw [Option.map_eq_some'] at h
  obtain ⟨L, _, hL⟩ := h
  rw [← hL]

lemma traverseOption_cons_inv {α β : Type} (f : α → Option β) (a : α) (t : List α)
    (r : List β) (h : traverseOption f (a :: t) = some r) :
    ∃ b bs, f a = some b ∧ traverseOption f t = some bs ∧ r = b :: bs := by
  rw [traverseOption_cons] at h
  cases hfa : f a with
  | none => rw [hfa] at h; simp at h
  | some b =>
    rw [hfa] at h
    simp only [Option.some_bind] at h
    cases hft : traverseOption f t with
    | none => rw [hft] at h; simp at h
    | some bs =>
      rw [hft] at h
      simp only [Option.some_bind] at h
      exact ⟨b, bs, rfl, rfl, (Option.some_inj.mp h).symm⟩

lemma traverseOption_ground_truths (md : Models) (lg ex : ℚ → ℚ) :
    ∀ (batches : List ValBatch) (vrs : List (ℚ × List ℕ × Option (List ℕ) × Mat)),
      traverseOption (fun b => valStep md lg ex b.ids b.amask b.labels false) batches = some vrs →
      traverseOption (fun r => r.2.2.1) vrs = some (batches.map (fun b => b.labels)) := by
  intro batches
  induction batches with
  | nil =>
    intro vrs h
    simp [traverseOption] at h
    subst h
    rfl
  | cons b t ih =>
    intro vrs h
    obtain ⟨r, rs, hr, hrs, hv⟩ := traverseOption_cons_inv _ b t vrs h
    subst hv
    rw [List.map_cons, traverseOption_cons, valStep_false_ground_truths md lg ex b.ids b.amask b.labels r hr]
    simp only [Option.some_bind, ih rs hrs]

/-- Claim C10: `val_epoch` always invokes `val_step` with
`inference_mode` left at its default `False`, for every `mode` value
including `'inference'`: a failing `val_step` (no valid labels) makes
`val_epoch` fail in every mode, success is mode-independent, and on
success in `'inference'` mode the returned ground truths are exactly the
stacked labels of all batches — the pure-inference branch of `val_step`
is unreachable from `val_epoch`. -/
theorem c10_val_epoch_never_inference_step
    (md : Models) (lg ex : ℚ → ℚ) (mode : String) (batches : List ValBatch) :
    (∀ b ∈ batches, valStep md lg ex b.ids b.amask b.labels false = none →
      valEpoch md lg ex batches mode = none)
    ∧ (∀ m2 : String, (valEpoch md lg ex batches mode).isSome = (valEpoch md lg ex batches m2).isSome)
    ∧ (∀ out, valEpoch md lg ex batches mode = some out → mode = "inference" →
        ∃ preds probs, out.extras =
          some (preds, (batches.map (fun b => b.labels)).flatten, probs)) := by
  refine ⟨?_, ?_, ?_⟩
  · intro b hb hnone
    have h := traverseOption_none_of_mem
      (fun b => valStep md lg ex b.ids b.amask b.labels false) batches b hb hnone
    unfold valEpoch valEpochCore
    rw [h]
    rfl
  · intro m2
    unfold valEpoch
    cases valEpochCore md lg ex batches <;> rfl
  · intro out hout hmode
    unfold valEpoch at hout
    rw [Option.map_eq_some'] at hout
    obtain ⟨c, hc, hass⟩ := hout
    obtain ⟨vrs, gl, hrs, hgl, _, hgts⟩ := valEpochCore_inversion md lg ex batches c hc
    have hgl2 := traverseOption_ground_truths md lg ex batches vrs hrs
    rw [hgl] at hgl2
    have hglv : gl = batches.map (fun b => b.labels) := Option.some_inj.mp hgl2
    refine ⟨c.2.2.1, c.2.2.2.2, ?_⟩
    rw [← hass]
    simp only [hmode, if_pos]
    rw [← hglv, ← hgts]

/-- Witness for C10: a one-batch dataloader whose labels are out of range
cannot be processed even in `'inference'` mode. -/
theorem c10_witness :
    valEpoch exModels id id [⟨[[0]], [[0]], [5]⟩] "inference" = none :=
  (c10_val_epoch_never_inference_step exModels id id "inference" [⟨[[0]], [[0]], [5]⟩]).1
    ⟨[[0]], [[0]], [5]⟩ (by simp) (by decide)

end GanBnBert
